import Mathlib

/-!
A shallow embedding of `src/weather.py` (a small weather-report pipeline) in
Lean 4, together with theorems settling the specification claims about it.

Modelling conventions:
* Python floats are modelled as exact rationals (`ℚ`).  Python's `round(x, 1)`
  is modelled as round-half-to-even at one decimal (`pyRound1`); for the
  Fahrenheit→Celsius pipeline on integer inputs no tie can occur, so the
  tie-breaking mode is irrelevant there.
* A Python value that may be a number or a string (duck-typed `float(x)`
  coercion) is modelled by `PyVal`; `pyFloat` models the builtin `float`,
  returning `none` where Python raises `ValueError` (a parse error).
* A raised exception propagating out of a function is modelled by `Option`
  (`none` = error).  Functions of the source that cannot raise on the claim's
  input domain are embedded as total functions.
* `datetime.fromisoformat` (date-only form `"YYYY-MM-DD"`) is modelled by
  `parseIsoDate`; `strftime "%A %d %B %Y"` is modelled by `formatHuman`
  (with `%Y` rendered zero-padded to 4 digits).
-/

namespace Weather

/-! ## Python numeric model -/

/-- Round a rational to the nearest integer, ties to even
(the rounding used by Python's `round`). -/
def roundHalfEven (q : ℚ) : ℤ :=
  let n := ⌊q⌋
  if q - n < 1/2 then n
  else if q - n > 1/2 then n + 1
  else if n % 2 = 0 then n else n + 1

/-- Python's `round(x, 1)`: round to one decimal place, ties to even. -/
def pyRound1 (q : ℚ) : ℚ := (roundHalfEven (q * 10) : ℚ) / 10

/-- A Python value that is either a number (int/float) or a string. -/
inductive PyVal where
  | num (q : ℚ)
  | str (s : String)
deriving DecidableEq

/-- Numeric value of a decimal digit character, `none` for a non-digit. -/
def digitVal (c : Char) : Option ℕ :=
  if c.isDigit then some (c.toNat - 48) else none

/-- The natural number spelled by a list of digit characters (most
significant first). -/
def natOfDigits (l : List Char) : ℕ :=
  l.foldl (fun a c => 10 * a + (c.toNat - 48)) 0

/-- Models Python's `float` on a string: an optional sign followed by a
decimal literal (`"12"`, `"12.5"`, `"12."`, `".5"`).  Returns `none` where
Python raises `ValueError`.  (Exponents, `inf`/`nan` and surrounding
whitespace, which Python also accepts, are outside this model.) -/
def parseFloatLit (s : String) : Option ℚ :=
  let cs := s.toList
  let signAndRest : ℚ × List Char :=
    match cs with
    | '-' :: rest => (-1, rest)
    | '+' :: rest => (1, rest)
    | _ => (1, cs)
  let sign := signAndRest.1
  let body := signAndRest.2
  let intPart := body.takeWhile Char.isDigit
  let rest := body.dropWhile Char.isDigit
  match rest with
  | [] =>
      if intPart.isEmpty then none
      else some (sign * natOfDigits intPart)
  | '.' :: frac =>
      if frac.all Char.isDigit && !(intPart.isEmpty && frac.isEmpty) then
        some (sign * ((natOfDigits intPart : ℚ) +
          (natOfDigits frac : ℚ) / (10 : ℚ) ^ frac.length))
      else none
  | _ => none

/-- Models the Python builtin `float(x)` for `x` a number or a string. -/
def pyFloat : PyVal → Option ℚ
  | .num q => some q
  | .str s => parseFloatLit s

/-! ## Date model (`datetime.fromisoformat` / `strftime "%A %d %B %Y"`) -/

/-- A calendar date, as produced by `datetime.fromisoformat` on a
date-only ISO 8601 string. -/
structure Date where
  year : ℕ
  month : ℕ
  day : ℕ
deriving DecidableEq

/-- Gregorian leap-year test (as used by Python's `datetime`). -/
def isLeapYear (y : ℕ) : Bool :=
  y % 4 = 0 && (y % 100 ≠ 0 || y % 400 = 0)

/-- Number of days in a month of a given year. -/
def daysInMonth (y m : ℕ) : ℕ :=
  if m = 2 then (if isLeapYear y then 29 else 28)
  else if m = 4 || m = 6 || m = 9 || m = 11 then 30
  else 31

/-- Validity of a (proleptic Gregorian) calendar date, with Python's
`datetime` year range `1..9999`. -/
def validDate (y m d : ℕ) : Bool :=
  1 ≤ y && y ≤ 9999 && 1 ≤ m && m ≤ 12 && 1 ≤ d && d ≤ daysInMonth y m

/-- Month-offset table of Sakamoto's day-of-week algorithm. -/
def sakamotoT : List ℕ := [0, 3, 2, 5, 0, 3, 5, 1, 4, 6, 2, 4]

/-- Day of the week of a proleptic Gregorian date, `0` = Sunday
(Sakamoto's algorithm); agrees with Python's `datetime` calendar. -/
def dayOfWeek (y m d : ℕ) : ℕ :=
  let y' := if m < 3 then y - 1 else y
  (y' + y' / 4 - y' / 100 + y' / 400 + sakamotoT.getD (m - 1) 0 + d) % 7

/-- English weekday names as produced by `strftime "%A"`, index `0` = Sunday. -/
def weekdayNames : List String :=
  ["Sunday", "Monday", "Tuesday", "Wednesday", "Thursday", "Friday", "Saturday"]

/-- English month names as produced by `strftime "%B"`, index `1` = January. -/
def monthNames : List String :=
  ["January", "February", "March", "April", "May", "June", "July",
   "August", "September", "October", "November", "December"]

/-- Zero-pad a number to two digits (`strftime "%d"`). -/
def pad2 (n : ℕ) : String :=
  if n < 10 then "0" ++ toString n else toString n

/-- Zero-pad a number to four digits (`strftime "%Y"`, modelled zero-padded). -/
def pad4 (n : ℕ) : String :=
  if n < 10 then "000" ++ toString n
  else if n < 100 then "00" ++ toString n
  else if n < 1000 then "0" ++ toString n
  else toString n

/-- `strftime "%A %d %B %Y"`: e.g. `"Tuesday 06 July 2021"`. -/
def formatHuman (dt : Date) : String :=
  weekdayNames.getD (dayOfWeek dt.year dt.month dt.day) "" ++ " " ++
    pad2 dt.day ++ " " ++ monthNames.getD (dt.month - 1) "" ++ " " ++ pad4 dt.year

/-- The character for a decimal digit value (`0 ↦ '0'`, …). -/
def digitChar (n : ℕ) : Char := Char.ofNat (48 + n)

/-- Parse two digit characters as a two-digit number. -/
def parse2 (c1 c2 : Char) : Option ℕ := do
  let a ← digitVal c1
  let b ← digitVal c2
  pure (10 * a + b)

/-- Parse four digit characters as a four-digit number. -/
def parse4 (c1 c2 c3 c4 : Char) : Option ℕ := do
  let a ← digitVal c1
  let b ← digitVal c2
  let c ← digitVal c3
  let d ← digitVal c4
  pure (1000 * a + 100 * b + 10 * c + d)

/-- Models `datetime.fromisoformat` on a date-only ISO 8601 string
`"YYYY-MM-DD"`: `none` where Python raises `ValueError`. -/
def parseIsoDate (s : String) : Option Date :=
  match s.toList with
  | [y1, y2, y3, y4, '-', m1, m2, '-', d1, d2] => do
      let y ← parse4 y1 y2 y3 y4
      let m ← parse2 m1 m2
      let d ← parse2 d1 d2
      if validDate y m d then pure ⟨y, m, d⟩ else none
  | _ => none

/-- The canonical ISO 8601 rendering `"YYYY-MM-DD"` of a date. -/
def renderIso (y m d : ℕ) : String :=
  List.asString [digitChar (y / 1000), digitChar (y / 100 % 10),
    digitChar (y / 10 % 10), digitChar (y % 10), '-',
    digitChar (m / 10), digitChar (m % 10), '-',
    digitChar (d / 10), digitChar (d % 10)]

/-! ## Embedded source functions (from `src/weather.py`) -/

/-- `DEGREE_SYMBOL = u"\N{DEGREE SIGN}C"` (module constant). -/
def DEGREE_SYMBOL : String := "°C"

/-- Rendering of a Python float that is an exact multiple of `1/10`
(e.g. the result of `round(x, 1)`): Python's `repr` prints it with exactly
one decimal digit (`0.0`, `-2.5`, `20.0`). -/
def fmtRat1 (q : ℚ) : String :=
  let n := ⌊q * 10⌋
  (if n < 0 then "-" else "") ++
    toString (n.natAbs / 10) ++ "." ++ toString (n.natAbs % 10)

/-- `format_temperature(temp)`: `f"{temp}{DEGREE_SYMBOL}"`, for a float
argument (its f-string rendering modelled by `fmtRat1`). -/
def format_temperature (temp : ℚ) : String :=
  fmtRat1 temp ++ DEGREE_SYMBOL

/-- `convert_date(iso_string)`: `datetime.fromisoformat` then
`strftime("%A %d %B %Y")`; `none` models the propagated `ValueError`. -/
def convert_date (iso_string : String) : Option String :=
  (parseIsoDate iso_string).map formatHuman

/-- The numeric core of `convert_f_to_c`:
`round((float(t) - 32) * 5/9, 1)` once `float` has already succeeded. -/
def convert_f_to_c_q (t : ℚ) : ℚ :=
  pyRound1 ((t - 32) * 5 / 9)

/-- `convert_f_to_c(temp_in_fahrenheit)`: `float` coercion, then
`(x - 32) * 5/9` rounded to one decimal; `none` models the `ValueError`
raised by `float` on a non-numeric string. -/
def convert_f_to_c (temp_in_fahrenheit : PyVal) : Option ℚ :=
  (pyFloat temp_in_fahrenheit).map convert_f_to_c_q

/-- The fixed sentinel string returned on empty input. -/
def noDataMsg : String := "No daily weather data available."

/-- `calculate_mean(weather_data)`: the sentinel string on an empty list,
otherwise `sum/len` of the `float`-converted elements; `none` models the
`ValueError` raised by `float` on a non-numeric element. -/
def calculate_mean (weather_data : List PyVal) : Option (String ⊕ ℚ) :=
  if weather_data.isEmpty then some (.inl noDataMsg)
  else
    match weather_data.mapM pyFloat with
    | none => none
    | some numeric_data =>
        some (.inr (numeric_data.sum / (numeric_data.length : ℚ)))

/-- `find_min(weather_data)` on a list of numbers: `()` (here `none`) for an
empty list, otherwise the minimum together with
`len - 1 - reversed_list.index(min)`, the index of its last occurrence. -/
def find_min (weather_data : List ℚ) : Option (ℚ × ℕ) :=
  if weather_data.isEmpty then none
  else
    match weather_data.min? with
    | none => none
    | some min_value =>
        some (min_value,
          weather_data.length - 1 - weather_data.reverse.indexOf min_value)

/-- `find_max(weather_data)` on a list of numbers: symmetric to `find_min`,
with the maximum and the index of its last occurrence. -/
def find_max (weather_data : List ℚ) : Option (ℚ × ℕ) :=
  if weather_data.isEmpty then none
  else
    match weather_data.max? with
    | none => none
    | some max_value =>
        some (max_value,
          weather_data.length - 1 - weather_data.reverse.indexOf max_value)

/-- One row of loaded weather data: `[date_str, min_f, max_f]` as produced
by `load_data_from_csv` (date string, two integers). -/
structure DayRecord where
  date : String
  min_f : ℤ
  max_f : ℤ
deriving DecidableEq

/-- The mutable locals of `generate_summary`'s loop.  `min_temp = none`
models the initial `float('inf')` (every finite value compares `<` it);
`max_temp = none` models `float('-inf')`. -/
structure SummaryState where
  min_temp : Option ℚ
  max_temp : Option ℚ
  min_day : String
  max_day : String
  total_min : ℚ
  total_max : ℚ
deriving DecidableEq

/-- `min_c < min_temp` where `none` stands for `float('inf')`. -/
def ltRunningMin (c : ℚ) : Option ℚ → Bool
  | none => true
  | some m => c < m

/-- `max_c > max_temp` where `none` stands for `float('-inf')`. -/
def gtRunningMax (c : ℚ) : Option ℚ → Bool
  | none => true
  | some m => c > m

/-- One iteration of `generate_summary`'s `for day in weather_data` loop. -/
def summaryStep (st : SummaryState) (day : DayRecord) : SummaryState :=
  let min_c := convert_f_to_c_q (day.min_f : ℚ)
  let max_c := convert_f_to_c_q (day.max_f : ℚ)
  let st1 := { st with
    total_min := st.total_min + min_c
    total_max := st.total_max + max_c }
  let st2 :=
    if ltRunningMin min_c st1.min_temp then
      { st1 with min_temp := some min_c, min_day := day.date }
    else st1
  if gtRunningMax max_c st2.max_temp then
    { st2 with max_temp := some max_c, max_day := day.date }
  else st2

/-- The initial state of `generate_summary`'s loop (lines 123–128). -/
def initSummaryState : SummaryState :=
  { min_temp := none, max_temp := none, min_day := "", max_day := "",
    total_min := 0, total_max := 0 }

/-- The state of `generate_summary`'s locals after the whole loop. -/
def summaryState (weather_data : List DayRecord) : SummaryState :=
  weather_data.foldl summaryStep initSummaryState

/-- `generate_summary(weather_data)`: the sentinel on empty input, otherwise
the five-line aggregate report.  `none` models a propagated `ValueError`
from `datetime.fromisoformat` on an extremal day's date (the `min_temp`/
`max_temp` `none` arms are unreachable for non-empty input). -/
def generate_summary (weather_data : List DayRecord) : Option String :=
  if weather_data.isEmpty then some noDataMsg
  else
    let st := summaryState weather_data
    let avg_min := pyRound1 (st.total_min / (weather_data.length : ℚ))
    let avg_max := pyRound1 (st.total_max / (weather_data.length : ℚ))
    match st.min_temp, st.max_temp,
        parseIsoDate st.min_day, parseIsoDate st.max_day with
    | some min_temp, some max_temp, some dmin, some dmax =>
        some (toString weather_data.length ++ " Day Overview\n" ++
          "  The lowest temperature will be " ++ format_temperature min_temp ++
            ", and will occur on " ++ formatHuman dmin ++ ".\n" ++
          "  The highest temperature will be " ++ format_temperature max_temp ++
            ", and will occur on " ++ formatHuman dmax ++ ".\n" ++
          "  The average low this week is " ++ format_temperature avg_min ++
            ".\n" ++
          "  The average high this week is " ++ format_temperature avg_max ++
            ".\n")
    | _, _, _, _ => none

/-- One block of `generate_daily_summary` (`summary_lines` joined by `"\n"`),
with the extra hyphen when `i == len(weather_data) - 1`; `none` models a
propagated `ValueError` from `datetime.fromisoformat`. -/
def dailyBlock (isLast : Bool) (day : DayRecord) : Option String :=
  (parseIsoDate day.date).map fun dt =>
    let date := formatHuman dt
    let min_c := pyRound1 (convert_f_to_c_q (day.min_f : ℚ))
    let max_c := pyRound1 (convert_f_to_c_q (day.max_f : ℚ))
    "---- " ++ date ++ " ----" ++ "\n" ++
      "  Minimum Temperature: " ++ format_temperature min_c ++ "\n" ++
      "  Maximum Temperature: " ++ format_temperature max_c ++
      (if isLast then "-" else "")

/-- `generate_daily_summary(weather_data)`: the sentinel on empty input,
otherwise the header plus the per-day blocks joined by blank lines. -/
def generate_daily_summary (weather_data : List DayRecord) : Option String :=
  if weather_data.isEmpty then some noDataMsg
  else
    match weather_data.enum.mapM
        (fun p => dailyBlock (p.1 = weather_data.length - 1) p.2) with
    | none => none
    | some daily_summaries =>
        some (toString weather_data.length ++ " Day Overview\n\n" ++
          String.intercalate "\n\n" daily_summaries)

/-! ## Specification-side views of the summary loop -/

/-- The per-record converted minimum temperatures (already rounded per day,
as `convert_f_to_c` rounds). -/
def convMins (wd : List DayRecord) : List ℚ :=
  wd.map fun r => convert_f_to_c_q (r.min_f : ℚ)

/-- The per-record converted maximum temperatures. -/
def convMaxs (wd : List DayRecord) : List ℚ :=
  wd.map fun r => convert_f_to_c_q (r.max_f : ℚ)

/-- Converted minimum paired with the record's date. -/
def minPairs (wd : List DayRecord) : List (ℚ × String) :=
  wd.map fun r => (convert_f_to_c_q (r.min_f : ℚ), r.date)

/-- Converted maximum paired with the record's date. -/
def maxPairs (wd : List DayRecord) : List (ℚ × String) :=
  wd.map fun r => (convert_f_to_c_q (r.max_f : ℚ), r.date)

/-- Running strict-`<` minimum over value/date pairs: on a tie the earlier
(accumulator) pair is kept — the aggregate summary's tie-break rule. -/
def firstMinRun : List (ℚ × String) → ℚ × String → ℚ × String
  | [], acc => acc
  | p :: rest, acc => firstMinRun rest (if p.1 < acc.1 then p else acc)

/-- Running strict-`>` maximum over value/date pairs, keeping the earlier
pair on ties. -/
def firstMaxRun : List (ℚ × String) → ℚ × String → ℚ × String
  | [], acc => acc
  | p :: rest, acc => firstMaxRun rest (if p.1 > acc.1 then p else acc)

/-! ## Helper lemmas -/

/-- `summaryStep` adds the converted temperatures to the running totals. -/
theorem summaryStep_total (st : SummaryState) (day : DayRecord) :
    (summaryStep st day).total_min =
        st.total_min + convert_f_to_c_q (day.min_f : ℚ) ∧
      (summaryStep st day).total_max =
        st.total_max + convert_f_to_c_q (day.max_f : ℚ) := by
  obtain ⟨mt, Mt, md, Md, tm, tM⟩ := st
  simp only [summaryStep]
  constructor <;> (split <;> split <;> rfl)

/-- `summaryStep` on a state with a finite running minimum updates the
minimum value/date fields exactly under strict `<`. -/
theorem summaryStep_min_fields (st : SummaryState) (day : DayRecord) (m : ℚ)
    (h : st.min_temp = some m) :
    (summaryStep st day).min_temp =
        some (if convert_f_to_c_q (day.min_f : ℚ) < m then
          convert_f_to_c_q (day.min_f : ℚ) else m) ∧
      (summaryStep st day).min_day =
        (if convert_f_to_c_q (day.min_f : ℚ) < m then day.date
          else st.min_day) := by
  obtain ⟨mt, Mt, md, Md, tm, tM⟩ := st
  obtain rfl : mt = some m := h
  by_cases hlt : convert_f_to_c_q (day.min_f : ℚ) < m
  · have hb : ltRunningMin (convert_f_to_c_q (day.min_f : ℚ)) (some m) = true := by
      simp [ltRunningMin, hlt]
    rw [if_pos hlt, if_pos hlt]
    simp only [summaryStep, hb, if_true]
    constructor <;> (split <;> rfl)
  · have hb : ltRunningMin (convert_f_to_c_q (day.min_f : ℚ)) (some m) = false := by
      simp [ltRunningMin, hlt]
    rw [if_neg hlt, if_neg hlt]
    simp only [summaryStep, hb, Bool.false_eq_true, if_false]
    constructor <;> (split <;> rfl)

/-- `summaryStep` on a state with a finite running maximum updates the
maximum value/date fields exactly under strict `>`. -/
theorem summaryStep_max_fields (st : SummaryState) (day : DayRecord) (M : ℚ)
    (h : st.max_temp = some M) :
    (summaryStep st day).max_temp =
        some (if convert_f_to_c_q (day.max_f : ℚ) > M then
          convert_f_to_c_q (day.max_f : ℚ) else M) ∧
      (summaryStep st day).max_day =
        (if convert_f_to_c_q (day.max_f : ℚ) > M then day.date
          else st.max_day) := by
  obtain ⟨mt, Mt, md, Md, tm, tM⟩ := st
  obtain rfl : Mt = some M := h
  by_cases hgt : convert_f_to_c_q (day.max_f : ℚ) > M
  · have hb : gtRunningMax (convert_f_to_c_q (day.max_f : ℚ)) (some M) = true := by
      simp [gtRunningMax, hgt]
    rw [if_pos hgt, if_pos hgt]
    simp only [summaryStep]
    constructor <;> (split <;> simp [hb])
  · have hb : gtRunningMax (convert_f_to_c_q (day.max_f : ℚ)) (some M) = false := by
      simp [gtRunningMax, hgt]
    rw [if_neg hgt, if_neg hgt]
    simp only [summaryStep]
    constructor <;> (split <;> simp [hb])

/-- The first loop iteration replaces both infinities and both dates. -/
theorem summaryStep_init (day : DayRecord) :
    (summaryStep initSummaryState day).min_temp =
        some (convert_f_to_c_q (day.min_f : ℚ)) ∧
      (summaryStep initSummaryState day).min_day = day.date ∧
      (summaryStep initSummaryState day).max_temp =
        some (convert_f_to_c_q (day.max_f : ℚ)) ∧
      (summaryStep initSummaryState day).max_day = day.date ∧
      (summaryStep initSummaryState day).total_min =
        convert_f_to_c_q (day.min_f : ℚ) ∧
      (summaryStep initSummaryState day).total_max =
        convert_f_to_c_q (day.max_f : ℚ) := by
  refine ⟨rfl, rfl, rfl, rfl, ?_, ?_⟩ <;>
    simp [summaryStep, initSummaryState, ltRunningMin, gtRunningMax]

/-- The loop accumulates the totals of the converted temperatures. -/
theorem foldl_summaryStep_total (l : List DayRecord) :
    ∀ st : SummaryState,
      (l.foldl summaryStep st).total_min = st.total_min + (convMins l).sum ∧
      (l.foldl summaryStep st).total_max = st.total_max + (convMaxs l).sum := by
  induction l with
  | nil => intro st; simp [convMins, convMaxs]
  | cons day rest ih =>
      intro st
      rw [List.foldl_cons]
      obtain ⟨ihm, ihM⟩ := ih (summaryStep st day)
      obtain ⟨hm, hM⟩ := summaryStep_total st day
      constructor
      · rw [ihm, hm]
        simp [convMins, add_assoc]
      · rw [ihM, hM]
        simp [convMaxs, add_assoc]

/-- From any state with a finite running minimum, the loop's minimum
value/date fields compute `firstMinRun` over the remaining records. -/
theorem foldl_summaryStep_min (l : List DayRecord) :
    ∀ (st : SummaryState) (m : ℚ), st.min_temp = some m →
      (l.foldl summaryStep st).min_temp =
          some (firstMinRun (minPairs l) (m, st.min_day)).1 ∧
        (l.foldl summaryStep st).min_day =
          (firstMinRun (minPairs l) (m, st.min_day)).2 := by
  induction l with
  | nil => intro st m h; simp [minPairs, firstMinRun, h]
  | cons day rest ih =>
      intro st m h
      rw [List.foldl_cons]
      obtain ⟨h1, h2⟩ := summaryStep_min_fields st day m h
      rw [minPairs, List.map_cons, ← minPairs]
      by_cases hlt : convert_f_to_c_q (day.min_f : ℚ) < m
      · rw [if_pos hlt] at h1 h2
        obtain ⟨g1, g2⟩ := ih (summaryStep st day) _ h1
        rw [h2] at g1 g2
        rw [firstMinRun]
        simpa [hlt] using And.intro g1 g2
      · rw [if_neg hlt] at h1 h2
        obtain ⟨g1, g2⟩ := ih (summaryStep st day) _ h1
        rw [h2] at g1 g2
        rw [firstMinRun]
        simpa [hlt] using And.intro g1 g2

/-- From any state with a finite running maximum, the loop's maximum
value/date fields compute `firstMaxRun` over the remaining records. -/
theorem foldl_summaryStep_max (l : List DayRecord) :
    ∀ (st : SummaryState) (M : ℚ), st.max_temp = some M →
      (l.foldl summaryStep st).max_temp =
          some (firstMaxRun (maxPairs l) (M, st.max_day)).1 ∧
        (l.foldl summaryStep st).max_day =
          (firstMaxRun (maxPairs l) (M, st.max_day)).2 := by
  induction l with
  | nil => intro st M h; simp [maxPairs, firstMaxRun, h]
  | cons day rest ih =>
      intro st M h
      rw [List.foldl_cons]
      obtain ⟨h1, h2⟩ := summaryStep_max_fields st day M h
      rw [maxPairs, List.map_cons, ← maxPairs]
      by_cases hgt : convert_f_to_c_q (day.max_f : ℚ) > M
      · rw [if_pos hgt] at h1 h2
        obtain ⟨g1, g2⟩ := ih (summaryStep st day) _ h1
        rw [h2] at g1 g2
        rw [firstMaxRun]
        simpa [hgt] using And.intro g1 g2
      · rw [if_neg hgt] at h1 h2
        obtain ⟨g1, g2⟩ := ih (summaryStep st day) _ h1
        rw [h2] at g1 g2
        rw [firstMaxRun]
        simpa [hgt] using And.intro g1 g2

/-- `mapM` over `Option` succeeds with the pointwise images when `f` succeeds
on every element. -/
theorem mapM_eq_some_map {α β : Type} (f : α → Option β) (g : α → β)
    (l : List α) (h : ∀ x ∈ l, f x = some (g x)) :
    l.mapM f = some (l.map g) := by
  induction l with
  | nil => rfl
  | cons x xs ih =>
      rw [List.mapM_cons, h x (by simp), ih fun y hy => h y (by simp [hy])]
      rfl

/-- `mapM` over `Option` fails as soon as `f` fails on some element. -/
theorem mapM_eq_none {α β : Type} (f : α → Option β) (l : List α)
    (h : ∃ x ∈ l, f x = none) : l.mapM f = none := by
  induction l with
  | nil => simp at h
  | cons x xs ih =>
      obtain ⟨y, hy, hfy⟩ := h
      rw [List.mapM_cons]
      rcases List.mem_cons.1 hy with rfl | hy
      · rw [hfy]; rfl
      · cases hfx : f x
        · rfl
        · rw [ih ⟨y, hy, hfy⟩]; rfl

/-- `mapM` over `Option` succeeding produces a list of the same length whose
entries are the successful images. -/
theorem mapM_some_length {α β : Type} (f : α → Option β) (l : List α)
    (res : List β) (h : l.mapM f = some res) : res.length = l.length := by
  induction l generalizing res with
  | nil =>
      rw [List.mapM_nil] at h
      simp only [Option.pure_def, Option.some.injEq] at h
      simp [← h]
  | cons x xs ih =>
      rw [List.mapM_cons] at h
      cases hfx : f x with
      | none => rw [hfx] at h; simp at h
      | some b =>
          rw [hfx] at h
          cases hxs : xs.mapM f with
          | none => rw [hxs] at h; simp at h
          | some bs =>
              rw [hxs] at h
              simp only [Option.pure_def, Option.bind_eq_bind, Option.some_bind,
                Option.some.injEq] at h
              subst h
              simp [ih bs hxs]

/-- The value tracked by `firstMinRun` is the running minimum. -/
theorem firstMinRun_fst (l : List (ℚ × String)) :
    ∀ acc : ℚ × String, (firstMinRun l acc).1 = (l.map Prod.fst).foldl min acc.1 := by
  induction l with
  | nil => intro acc; rfl
  | cons p rest ih =>
      intro acc
      rw [firstMinRun, List.map_cons, List.foldl_cons, ih]
      congr 1
      by_cases h : p.1 < acc.1
      · rw [if_pos h, min_eq_right (le_of_lt h)]
      · rw [if_neg h, min_eq_left (not_lt.1 h)]

/-- The value tracked by `firstMaxRun` is the running maximum. -/
theorem firstMaxRun_fst (l : List (ℚ × String)) :
    ∀ acc : ℚ × String, (firstMaxRun l acc).1 = (l.map Prod.fst).foldl max acc.1 := by
  induction l with
  | nil => intro acc; rfl
  | cons p rest ih =>
      intro acc
      rw [firstMaxRun, List.map_cons, List.foldl_cons, ih]
      congr 1
      by_cases h : p.1 > acc.1
      · rw [if_pos h, max_eq_right (le_of_lt h)]
      · rw [if_neg h, max_eq_left (not_lt.1 h)]

/-- `firstMinRun` either keeps its accumulator (when no element strictly
improves on it) or returns the first list entry attaining the minimum, every
earlier entry being strictly larger. -/
theorem firstMinRun_cases (l : List (ℚ × String)) :
    ∀ acc : ℚ × String,
      (firstMinRun l acc = acc ∧ ∀ p ∈ l, acc.1 ≤ p.1) ∨
      (∃ i, i < l.length ∧ l.getD i (0, "") = firstMinRun l acc ∧
        (firstMinRun l acc).1 < acc.1 ∧
        ∀ j, j < i → (firstMinRun l acc).1 < (l.getD j (0, "")).1) := by
  induction l with
  | nil => intro acc; exact Or.inl ⟨rfl, by simp⟩
  | cons p rest ih =>
      intro acc
      rw [firstMinRun]
      by_cases hp : p.1 < acc.1
      · rw [if_pos hp]
        rcases ih p with ⟨heq, _⟩ | ⟨i, hi, hget, hlt, hbefore⟩
        · right
          refine ⟨0, by simp, ?_, ?_, ?_⟩
          · rw [heq, List.getD_cons_zero]
          · rw [heq]; exact hp
          · intro j hj; exact absurd hj (Nat.not_lt_zero j)
        · right
          refine ⟨i + 1, by simpa using hi, ?_, lt_trans hlt hp, ?_⟩
          · rw [List.getD_cons_succ]; exact hget
          · intro j hj
            cases j with
            | zero => rw [List.getD_cons_zero]; exact hlt
            | succ j' => rw [List.getD_cons_succ]; exact hbefore j' (by omega)
      · rw [if_neg hp]
        rcases ih acc with ⟨heq, hall⟩ | ⟨i, hi, hget, hlt, hbefore⟩
        · left
          refine ⟨heq, ?_⟩
          intro q hq
          rcases List.mem_cons.1 hq with rfl | hq'
          · exact not_lt.1 hp
          · exact hall q hq'
        · right
          refine ⟨i + 1, by simpa using hi, ?_, hlt, ?_⟩
          · rw [List.getD_cons_succ]; exact hget
          · intro j hj
            cases j with
            | zero => rw [List.getD_cons_zero]; exact lt_of_lt_of_le hlt (not_lt.1 hp)
            | succ j' => rw [List.getD_cons_succ]; exact hbefore j' (by omega)

/-- `firstMaxRun` either keeps its accumulator or returns the first list
entry attaining the maximum, every earlier entry being strictly smaller. -/
theorem firstMaxRun_cases (l : List (ℚ × String)) :
    ∀ acc : ℚ × String,
      (firstMaxRun l acc = acc ∧ ∀ p ∈ l, p.1 ≤ acc.1) ∨
      (∃ i, i < l.length ∧ l.getD i (0, "") = firstMaxRun l acc ∧
        acc.1 < (firstMaxRun l acc).1 ∧
        ∀ j, j < i → (l.getD j (0, "")).1 < (firstMaxRun l acc).1) := by
  induction l with
  | nil => intro acc; exact Or.inl ⟨rfl, by simp⟩
  | cons p rest ih =>
      intro acc
      rw [firstMaxRun]
      by_cases hp : p.1 > acc.1
      · rw [if_pos hp]
        rcases ih p with ⟨heq, _⟩ | ⟨i, hi, hget, hlt, hbefore⟩
        · right
          refine ⟨0, by simp, ?_, ?_, ?_⟩
          · rw [heq, List.getD_cons_zero]
          · rw [heq]; exact hp
          · intro j hj; exact absurd hj (Nat.not_lt_zero j)
        · right
          refine ⟨i + 1, by simpa using hi, ?_, lt_trans hp hlt, ?_⟩
          · rw [List.getD_cons_succ]; exact hget
          · intro j hj
            cases j with
            | zero => rw [List.getD_cons_zero]; exact hlt
            | succ j' => rw [List.getD_cons_succ]; exact hbefore j' (by omega)
      · rw [if_neg hp]
        rcases ih acc with ⟨heq, hall⟩ | ⟨i, hi, hget, hlt, hbefore⟩
        · left
          refine ⟨heq, ?_⟩
          intro q hq
          rcases List.mem_cons.1 hq with rfl | hq'
          · exact not_lt.1 hp
          · exact hall q hq'
        · right
          refine ⟨i + 1, by simpa using hi, ?_, hlt, ?_⟩
          · rw [List.getD_cons_succ]; exact hget
          · intro j hj
            cases j with
            | zero => rw [List.getD_cons_zero]; exact lt_of_le_of_lt (not_lt.1 hp) hlt
            | succ j' => rw [List.getD_cons_succ]; exact hbefore j' (by omega)

/-- `List.indexOf` returns the first occurrence: in bounds, hitting the
element, with no earlier hit. -/
theorem indexOf_spec (a : ℚ) (l : List ℚ) (h : a ∈ l) :
    l.indexOf a < l.length ∧ l.getD (l.indexOf a) 0 = a ∧
      ∀ j, j < l.indexOf a → l.getD j 0 ≠ a := by
  induction l with
  | nil => cases h
  | cons x xs ih =>
      by_cases hxa : x = a
      · subst hxa
        simp [List.indexOf_cons]
      · have hmem : a ∈ xs := by
          rcases List.mem_cons.1 h with h' | h'
          · exact absurd h'.symm hxa
          · exact h'
        obtain ⟨ih1, ih2, ih3⟩ := ih hmem
        have hidx : (x :: xs).indexOf a = xs.indexOf a + 1 := by
          simp [List.indexOf_cons, hxa]
        refine ⟨by simp [hidx]; omega,
          by rw [hidx, List.getD_cons_succ]; exact ih2, ?_⟩
        intro j hj
        rw [hidx] at hj
        cases j with
        | zero => simpa using hxa
        | succ j' =>
            rw [List.getD_cons_succ]
            exact ih3 j' (by omega)

/-- `getD` on a reversed list, as `getD` at the mirrored index. -/
theorem getD_reverse (l : List ℚ) (j : ℕ) (h : j < l.length) :
    l.reverse.getD j 0 = l.getD (l.length - 1 - j) 0 := by
  rw [List.getD_eq_getElem _ _ (by simpa using h),
    List.getD_eq_getElem _ _ (by omega), List.getElem_reverse]

/-- `len - 1 - reversed.index(a)` (the Python idiom in `find_min`/`find_max`)
is the index of the last occurrence of `a`. -/
theorem lastOcc_spec (a : ℚ) (l : List ℚ) (h : a ∈ l) :
    l.length - 1 - l.reverse.indexOf a < l.length ∧
    l.getD (l.length - 1 - l.reverse.indexOf a) 0 = a ∧
    ∀ j, l.length - 1 - l.reverse.indexOf a < j → j < l.length →
      l.getD j 0 ≠ a := by
  have hrev : a ∈ l.reverse := List.mem_reverse.2 h
  obtain ⟨hk, hget, hbefore⟩ := indexOf_spec a l.reverse hrev
  have hlen : l.reverse.length = l.length := List.length_reverse l
  have hk' : l.reverse.indexOf a < l.length := hlen ▸ hk
  have hpos : 0 < l.length := List.length_pos.2 (by rintro rfl; cases h)
  refine ⟨by omega, ?_, ?_⟩
  · rw [← getD_reverse l _ hk']
    exact hget
  · intro j hj hjlen hcontra
    have h1 : l.length - 1 - j < l.reverse.indexOf a := by omega
    have h2 : l.reverse.getD (l.length - 1 - j) 0 = l.getD j 0 := by
      rw [getD_reverse l (l.length - 1 - j) (by omega)]
      congr 1
      omega
    exact hbefore _ h1 (by rw [h2]; exact hcontra)

/-- `foldl min` is bounded by its initial value. -/
theorem foldl_min_le_init (xs : List ℚ) (x : ℚ) : xs.foldl min x ≤ x := by
  induction xs generalizing x with
  | nil => exact le_refl x
  | cons y ys ih => exact le_trans (ih (min x y)) (min_le_left x y)

/-- `foldl min` is bounded by every list element. -/
theorem foldl_min_le_mem (xs : List ℚ) (x : ℚ) :
    ∀ y ∈ xs, xs.foldl min x ≤ y := by
  induction xs generalizing x with
  | nil => intro y hy; cases hy
  | cons z zs ih =>
      intro y hy
      rcases List.mem_cons.1 hy with rfl | hy'
      · exact le_trans (foldl_min_le_init zs (min x y)) (min_le_right x y)
      · exact ih (min x z) y hy'

/-- `foldl min` is the initial value or a list element. -/
theorem foldl_min_mem (xs : List ℚ) (x : ℚ) :
    xs.foldl min x = x ∨ xs.foldl min x ∈ xs := by
  induction xs generalizing x with
  | nil => exact Or.inl rfl
  | cons y ys ih =>
      rcases ih (min x y) with h | h
      · rcases min_choice x y with hc | hc
        · exact Or.inl (by rw [List.foldl_cons, h, hc])
        · exact Or.inr (by rw [List.foldl_cons, h, hc]; exact List.mem_cons_self y ys)
      · exact Or.inr (List.mem_cons_of_mem y h)

/-- `foldl max` is bounded below by its initial value. -/
theorem le_foldl_max_init (xs : List ℚ) (x : ℚ) : x ≤ xs.foldl max x := by
  induction xs generalizing x with
  | nil => exact le_refl x
  | cons y ys ih => exact le_trans (le_max_left x y) (ih (max x y))

/-- `foldl max` is bounded below by every list element. -/
theorem le_foldl_max_mem (xs : List ℚ) (x : ℚ) :
    ∀ y ∈ xs, y ≤ xs.foldl max x := by
  induction xs generalizing x with
  | nil => intro y hy; cases hy
  | cons z zs ih =>
      intro y hy
      rcases List.mem_cons.1 hy with rfl | hy'
      · exact le_trans (le_max_right x y) (le_foldl_max_init zs (max x y))
      · exact ih (max x z) y hy'

/-- `foldl max` is the initial value or a list element. -/
theorem foldl_max_mem (xs : List ℚ) (x : ℚ) :
    xs.foldl max x = x ∨ xs.foldl max x ∈ xs := by
  induction xs generalizing x with
  | nil => exact Or.inl rfl
  | cons y ys ih =>
      rcases ih (max x y) with h | h
      · rcases max_choice x y with hc | hc
        · exact Or.inl (by rw [List.foldl_cons, h, hc])
        · exact Or.inr (by rw [List.foldl_cons, h, hc]; exact List.mem_cons_self y ys)
      · exact Or.inr (List.mem_cons_of_mem y h)

/-- `digitVal` inverts `digitChar` on digit values. -/
theorem digitVal_digitChar (n : ℕ) (h : n < 10) :
    digitVal (digitChar n) = some n := by
  interval_cases n <;> decide

/-- A successful `digitVal` comes from a digit character. -/
theorem digitVal_eq_some (c : Char) (a : ℕ) (h : digitVal c = some a) :
    a < 10 ∧ c = digitChar a := by
  by_cases hd : c.isDigit
  · have hb : 48 ≤ c.toNat ∧ c.toNat ≤ 57 := by
      simp only [Char.isDigit, decide_eq_true_eq, Bool.and_eq_true] at hd
      exact ⟨hd.1, hd.2⟩
    have ha : a = c.toNat - 48 := by
      simp only [digitVal, hd, if_true, Option.some.injEq] at h
      omega
    subst ha
    refine ⟨by omega, ?_⟩
    have : 48 + (c.toNat - 48) = c.toNat := by omega
    rw [digitChar, this, Char.ofNat_toNat]
  · simp [digitVal, hd] at h

/-- `parse2` inverts the two-digit rendering. -/
theorem parse2_digitChar (m : ℕ) (h : m < 100) :
    parse2 (digitChar (m / 10)) (digitChar (m % 10)) = some m := by
  have h1 := digitVal_digitChar (m / 10) (by omega)
  have h2 := digitVal_digitChar (m % 10) (by omega)
  simp only [parse2, h1, h2, Option.bind_eq_bind, Option.some_bind,
    Option.pure_def, Option.some.injEq]
  omega

/-- A successful `parse2` comes from the two-digit rendering. -/
theorem parse2_eq_some (c1 c2 : Char) (m : ℕ) (h : parse2 c1 c2 = some m) :
    m < 100 ∧ c1 = digitChar (m / 10) ∧ c2 = digitChar (m % 10) := by
  cases h1 : digitVal c1 with
  | none => simp [parse2, h1] at h
  | some a =>
      cases h2 : digitVal c2 with
      | none => simp [parse2, h1, h2] at h
      | some b =>
          simp only [parse2, h1, h2, Option.bind_eq_bind, Option.some_bind,
            Option.pure_def, Option.some.injEq] at h
          obtain ⟨ha1, ha2⟩ := digitVal_eq_some c1 a h1
          obtain ⟨hb1, hb2⟩ := digitVal_eq_some c2 b h2
          subst h
          refine ⟨by omega, ?_, ?_⟩
          · rw [ha2]; congr 1; omega
          · rw [hb2]; congr 1; omega

/-- `parse4` inverts the four-digit rendering. -/
theorem parse4_digitChar (y : ℕ) (h : y < 10000) :
    parse4 (digitChar (y / 1000)) (digitChar (y / 100 % 10))
      (digitChar (y / 10 % 10)) (digitChar (y % 10)) = some y := by
  have h1 := digitVal_digitChar (y / 1000) (by omega)
  have h2 := digitVal_digitChar (y / 100 % 10) (by omega)
  have h3 := digitVal_digitChar (y / 10 % 10) (by omega)
  have h4 := digitVal_digitChar (y % 10) (by omega)
  simp only [parse4, h1, h2, h3, h4, Option.bind_eq_bind, Option.some_bind,
    Option.pure_def, Option.some.injEq]
  omega

/-- A successful `parse4` comes from the four-digit rendering. -/
theorem parse4_eq_some (c1 c2 c3 c4 : Char) (y : ℕ)
    (h : parse4 c1 c2 c3 c4 = some y) :
    y < 10000 ∧ c1 = digitChar (y / 1000) ∧ c2 = digitChar (y / 100 % 10) ∧
      c3 = digitChar (y / 10 % 10) ∧ c4 = digitChar (y % 10) := by
  cases h1 : digitVal c1 with
  | none => simp [parse4, h1] at h
  | some a =>
  cases h2 : digitVal c2 with
  | none => simp [parse4, h1, h2] at h
  | some b =>
  cases h3 : digitVal c3 with
  | none => simp [parse4, h1, h2, h3] at h
  | some c =>
  cases h4 : digitVal c4 with
  | none => simp [parse4, h1, h2, h3, h4] at h
  | some d =>
  simp only [parse4, h1, h2, h3, h4, Option.bind_eq_bind, Option.some_bind,
    Option.pure_def, Option.some.injEq] at h
  obtain ⟨ha1, ha2⟩ := digitVal_eq_some c1 a h1
  obtain ⟨hb1, hb2⟩ := digitVal_eq_some c2 b h2
  obtain ⟨hc1, hc2⟩ := digitVal_eq_some c3 c h3
  obtain ⟨hd1, hd2⟩ := digitVal_eq_some c4 d h4
  subst h
  refine ⟨by omega, ?_, ?_, ?_, ?_⟩
  · rw [ha2]; congr 1; omega
  · rw [hb2]; congr 1; omega
  · rw [hc2]; congr 1; omega
  · rw [hd2]; congr 1; omega

/-- A successful ISO parse yields a valid date whose canonical rendering is
the input string. -/
theorem parseIsoDate_eq_some (s : String) (dt : Date)
    (h : parseIsoDate s = some dt) :
    validDate dt.year dt.month dt.day = true ∧
      s = renderIso dt.year dt.month dt.day := by
  unfold parseIsoDate at h
  split at h
  case h_2 => cases h
  case h_1 y1 y2 y3 y4 m1 m2 d1 d2 heq =>
    cases hy : parse4 y1 y2 y3 y4 with
    | none => rw [hy] at h; simp at h
    | some y =>
    rw [hy] at h
    cases hm : parse2 m1 m2 with
    | none => rw [hm] at h; simp at h
    | some m =>
    rw [hm] at h
    cases hd : parse2 d1 d2 with
    | none => rw [hd] at h; simp at h
    | some d =>
    rw [hd] at h
    simp only [Option.bind_eq_bind, Option.some_bind] at h
    by_cases hv : validDate y m d
    · rw [if_pos hv] at h
      simp only [Option.pure_def, Option.some.injEq] at h
      subst h
      obtain ⟨hy0, hy1, hy2, hy3, hy4⟩ := parse4_eq_some y1 y2 y3 y4 y hy
      obtain ⟨hm0, hm1, hm2⟩ := parse2_eq_some m1 m2 m hm
      obtain ⟨hd0, hd1, hd2⟩ := parse2_eq_some d1 d2 d hd
      refine ⟨hv, ?_⟩
      have : (renderIso y m d).toList = s.toList := by
        rw [renderIso, List.toList_asString, heq]
        rw [hy1, hy2, hy3, hy4, hm1, hm2, hd1, hd2]
      exact (String.toList_inj.1 this).symm
    · rw [if_neg hv] at h
      cases h

/-- `parseIsoDate` succeeds on the canonical rendering of every valid date. -/
theorem parseIsoDate_renderIso (y m d : ℕ) (h : validDate y m d = true) :
    parseIsoDate (renderIso y m d) = some ⟨y, m, d⟩ := by
  have hb : 1 ≤ y ∧ y ≤ 9999 ∧ 1 ≤ m ∧ m ≤ 12 ∧ 1 ≤ d ∧ d ≤ daysInMonth y m := by
    simp only [validDate, Bool.and_eq_true, decide_eq_true_eq] at h
    exact ⟨h.1.1.1.1.1, h.1.1.1.1.2, h.1.1.1.2, h.1.1.2, h.1.2, h.2⟩
  have hdm : daysInMonth y m ≤ 31 := by
    unfold daysInMonth
    split
    · split <;> omega
    · split <;> omega
  unfold parseIsoDate
  rw [renderIso, List.toList_asString]
  simp only [parse4_digitChar y (by omega), parse2_digitChar m (by omega),
    parse2_digitChar d (by omega), Option.bind_eq_bind, Option.some_bind, h,
    if_true]
  rfl

/-- After the loop of `generate_summary` on a non-empty series, `min_temp`
is the overall minimum converted temperature and `min_day` is the date of
the FIRST record attaining it (all earlier records are strictly warmer). -/
theorem summary_min_spec (wd : List DayRecord) (hne : wd ≠ []) :
    ∃ m i, (summaryState wd).min_temp = some m ∧ i < wd.length ∧
      (summaryState wd).min_day = (wd.getD i ⟨"", 0, 0⟩).date ∧
      convert_f_to_c_q ((wd.getD i ⟨"", 0, 0⟩).min_f : ℚ) = m ∧
      (∀ r ∈ wd, m ≤ convert_f_to_c_q (r.min_f : ℚ)) ∧
      (∀ j, j < i → m < convert_f_to_c_q ((wd.getD j ⟨"", 0, 0⟩).min_f : ℚ)) := by
  obtain ⟨d0, rest, rfl⟩ := List.exists_cons_of_ne_nil hne
  have hfold : summaryState (d0 :: rest) =
      rest.foldl summaryStep (summaryStep initSummaryState d0) := by
    rw [summaryState, List.foldl_cons]
  obtain ⟨i1, i2, _i3, _i4, _i5, _i6⟩ := summaryStep_init d0
  obtain ⟨g1, g2⟩ :=
    foldl_summaryStep_min rest (summaryStep initSummaryState d0) _ i1
  rw [i2] at g1 g2
  set c0 := convert_f_to_c_q (d0.min_f : ℚ) with hc0
  set R := firstMinRun (minPairs rest) (c0, d0.date) with hR
  have hmapfst : (minPairs rest).map Prod.fst = convMins rest := by
    simp [minPairs, convMins]
  have hRfst : R.1 = (convMins rest).foldl min c0 := by
    rw [hR, firstMinRun_fst, hmapfst]
  have hlb : ∀ r ∈ d0 :: rest, R.1 ≤ convert_f_to_c_q (r.min_f : ℚ) := by
    intro r hr
    rcases List.mem_cons.1 hr with rfl | hr'
    · rw [hRfst]; exact foldl_min_le_init _ _
    · rw [hRfst]
      have hmem : convert_f_to_c_q (r.min_f : ℚ) ∈ convMins rest := by
        unfold convMins
        exact List.mem_map_of_mem _ hr'
      exact foldl_min_le_mem _ _ _ hmem
  rcases firstMinRun_cases (minPairs rest) (c0, d0.date)
    with ⟨heq, _⟩ | ⟨i, hi, hget, hlt, hbefore⟩
  · refine ⟨R.1, 0, ?_, by simp, ?_, ?_, hlb, ?_⟩
    · rw [hfold]; exact g1
    · rw [hfold, g2, hR, heq, List.getD_cons_zero]
    · rw [List.getD_cons_zero, hR, heq]
    · intro j hj; exact absurd hj (Nat.not_lt_zero j)
  · rw [← hR] at hget hlt hbefore
    have hi' : i < rest.length := by simpa [minPairs] using hi
    have hgetD : (minPairs rest).getD i (0, "") =
        (convert_f_to_c_q ((rest.getD i ⟨"", 0, 0⟩).min_f : ℚ),
          (rest.getD i ⟨"", 0, 0⟩).date) := by
      rw [List.getD_eq_getElem _ _ hi, List.getD_eq_getElem _ _ hi']
      simp [minPairs]
    refine ⟨R.1, i + 1, ?_, by simp; omega, ?_, ?_, hlb, ?_⟩
    · rw [hfold]; exact g1
    · rw [hfold, g2, List.getD_cons_succ, ← hget, hgetD]
    · rw [List.getD_cons_succ, ← hget, hgetD]
    · intro j hj
      cases j with
      | zero => rw [List.getD_cons_zero, ← hc0]; exact hlt
      | succ j' =>
          have hj' : j' < i := by omega
          have := hbefore j' hj'
          rw [List.getD_cons_succ]
          have hgetD' : (minPairs rest).getD j' (0, "") =
              (convert_f_to_c_q ((rest.getD j' ⟨"", 0, 0⟩).min_f : ℚ),
                (rest.getD j' ⟨"", 0, 0⟩).date) := by
            rw [List.getD_eq_getElem _ _ (by simp [minPairs]; omega),
              List.getD_eq_getElem _ _ (by omega)]
            simp [minPairs]
          rw [hgetD'] at this
          exact this

/-- After the loop of `generate_summary` on a non-empty series, `max_temp`
is the overall maximum converted temperature and `max_day` is the date of
the FIRST record attaining it (all earlier records are strictly cooler). -/
theorem summary_max_spec (wd : List DayRecord) (hne : wd ≠ []) :
    ∃ m i, (summaryState wd).max_temp = some m ∧ i < wd.length ∧
      (summaryState wd).max_day = (wd.getD i ⟨"", 0, 0⟩).date ∧
      convert_f_to_c_q ((wd.getD i ⟨"", 0, 0⟩).max_f : ℚ) = m ∧
      (∀ r ∈ wd, convert_f_to_c_q (r.max_f : ℚ) ≤ m) ∧
      (∀ j, j < i → convert_f_to_c_q ((wd.getD j ⟨"", 0, 0⟩).max_f : ℚ) < m) := by
  obtain ⟨d0, rest, rfl⟩ := List.exists_cons_of_ne_nil hne
  have hfold : summaryState (d0 :: rest) =
      rest.foldl summaryStep (summaryStep initSummaryState d0) := by
    rw [summaryState, List.foldl_cons]
  obtain ⟨_i1, _i2, i3, i4, _i5, _i6⟩ := summaryStep_init d0
  obtain ⟨g1, g2⟩ :=
    foldl_summaryStep_max rest (summaryStep initSummaryState d0) _ i3
  rw [i4] at g1 g2
  set c0 := convert_f_to_c_q (d0.max_f : ℚ) with hc0
  set R := firstMaxRun (maxPairs rest) (c0, d0.date) with hR
  have hmapfst : (maxPairs rest).map Prod.fst = convMaxs rest := by
    simp [maxPairs, convMaxs]
  have hRfst : R.1 = (convMaxs rest).foldl max c0 := by
    rw [hR, firstMaxRun_fst, hmapfst]
  have hub : ∀ r ∈ d0 :: rest, convert_f_to_c_q (r.max_f : ℚ) ≤ R.1 := by
    intro r hr
    rcases List.mem_cons.1 hr with rfl | hr'
    · rw [hRfst]; exact le_foldl_max_init _ _
    · rw [hRfst]
      have hmem : convert_f_to_c_q (r.max_f : ℚ) ∈ convMaxs rest := by
        unfold convMaxs
        exact List.mem_map_of_mem _ hr'
      exact le_foldl_max_mem _ _ _ hmem
  rcases firstMaxRun_cases (maxPairs rest) (c0, d0.date)
    with ⟨heq, _⟩ | ⟨i, hi, hget, hlt, hbefore⟩
  · refine ⟨R.1, 0, ?_, by simp, ?_, ?_, hub, ?_⟩
    · rw [hfold]; exact g1
    · rw [hfold, g2, hR, heq, List.getD_cons_zero]
    · rw [List.getD_cons_zero, hR, heq]
    · intro j hj; exact absurd hj (Nat.not_lt_zero j)
  · rw [← hR] at hget hlt hbefore
    have hi' : i < rest.length := by simpa [maxPairs] using hi
    have hgetD : (maxPairs rest).getD i (0, "") =
        (convert_f_to_c_q ((rest.getD i ⟨"", 0, 0⟩).max_f : ℚ),
          (rest.getD i ⟨"", 0, 0⟩).date) := by
      rw [List.getD_eq_getElem _ _ hi, List.getD_eq_getElem _ _ hi']
      simp [maxPairs]
    refine ⟨R.1, i + 1, ?_, by simp; omega, ?_, ?_, hub, ?_⟩
    · rw [hfold]; exact g1
    · rw [hfold, g2, List.getD_cons_succ, ← hget, hgetD]
    · rw [List.getD_cons_succ, ← hget, hgetD]
    · intro j hj
      cases j with
      | zero => rw [List.getD_cons_zero, ← hc0]; exact hlt
      | succ j' =>
          have hj' : j' < i := by omega
          have := hbefore j' hj'
          rw [List.getD_cons_succ]
          have hgetD' : (maxPairs rest).getD j' (0, "") =
              (convert_f_to_c_q ((rest.getD j' ⟨"", 0, 0⟩).max_f : ℚ),
                (rest.getD j' ⟨"", 0, 0⟩).date) := by
            rw [List.getD_eq_getElem _ _ (by simp [maxPairs]; omega),
              List.getD_eq_getElem _ _ (by omega)]
            simp [maxPairs]
          rw [hgetD'] at this
          exact this

/-- `find_min` on a non-empty list returns the minimum value with the index
of its last occurrence. -/
theorem find_min_nonempty :
    ∀ l : List ℚ, l ≠ [] → ∃ m i, find_min l = some (m, i) ∧
      i < l.length ∧ l.getD i 0 = m ∧ (∀ x ∈ l, m ≤ x) ∧
      (∀ j, i < j → j < l.length → l.getD j 0 ≠ m) := by
  intro l hne
  obtain ⟨x, xs, rfl⟩ := List.exists_cons_of_ne_nil hne
  have hmem : xs.foldl min x ∈ x :: xs := by
    rcases foldl_min_mem xs x with h | h
    · rw [h]; exact List.mem_cons_self x xs
    · exact List.mem_cons_of_mem x h
  obtain ⟨h1, h2, h3⟩ := lastOcc_spec (xs.foldl min x) (x :: xs) hmem
  refine ⟨xs.foldl min x,
    (x :: xs).length - 1 - (x :: xs).reverse.indexOf (xs.foldl min x),
    ?_, h1, h2, ?_, h3⟩
  · unfold find_min
    rw [if_neg (by simp)]
    rfl
  · intro y hy
    rcases List.mem_cons.1 hy with rfl | hy'
    · exact foldl_min_le_init xs y
    · exact foldl_min_le_mem xs x y hy'

/-- `find_max` on a non-empty list returns the maximum value with the index
of its last occurrence. -/
theorem find_max_nonempty :
    ∀ l : List ℚ, l ≠ [] → ∃ m i, find_max l = some (m, i) ∧
      i < l.length ∧ l.getD i 0 = m ∧ (∀ x ∈ l, x ≤ m) ∧
      (∀ j, i < j → j < l.length → l.getD j 0 ≠ m) := by
  intro l hne
  obtain ⟨x, xs, rfl⟩ := List.exists_cons_of_ne_nil hne
  have hmem : xs.foldl max x ∈ x :: xs := by
    rcases foldl_max_mem xs x with h | h
    · rw [h]; exact List.mem_cons_self x xs
    · exact List.mem_cons_of_mem x h
  obtain ⟨h1, h2, h3⟩ := lastOcc_spec (xs.foldl max x) (x :: xs) hmem
  refine ⟨xs.foldl max x,
    (x :: xs).length - 1 - (x :: xs).reverse.indexOf (xs.foldl max x),
    ?_, h1, h2, ?_, h3⟩
  · unfold find_max
    rw [if_neg (by simp)]
    rfl
  · intro y hy
    rcases List.mem_cons.1 hy with rfl | hy'
    · exact le_foldl_max_init xs y
    · exact le_foldl_max_mem xs x y hy'

/-- `convMins` read at an index. -/
theorem convMins_getD (wd : List DayRecord) (i : ℕ) (h : i < wd.length) :
    (convMins wd).getD i 0 =
      convert_f_to_c_q ((wd.getD i ⟨"", 0, 0⟩).min_f : ℚ) := by
  rw [List.getD_eq_getElem _ _ (by simpa [convMins] using h),
    List.getD_eq_getElem _ _ h]
  simp [convMins]

/-- `convMaxs` read at an index. -/
theorem convMaxs_getD (wd : List DayRecord) (i : ℕ) (h : i < wd.length) :
    (convMaxs wd).getD i 0 =
      convert_f_to_c_q ((wd.getD i ⟨"", 0, 0⟩).max_f : ℚ) := by
  rw [List.getD_eq_getElem _ _ (by simpa [convMaxs] using h),
    List.getD_eq_getElem _ _ h]
  simp [convMaxs]

/-- Two distinct in-bounds indices holding the same value force a count of
at least two. -/
theorem two_getD_count (l : List ℚ) (a : ℚ) :
    ∀ i j : ℕ, i ≠ j → i < l.length → j < l.length →
      l.getD i 0 = a → l.getD j 0 = a → 2 ≤ l.count a := by
  induction l with
  | nil => intro i j _ hi _ _ _; simp at hi
  | cons x xs ih =>
      intro i j hij hi hj h1 h2
      rw [List.count_cons]
      cases i with
      | zero =>
          cases j with
          | zero => exact absurd rfl hij
          | succ j' =>
              rw [List.getD_cons_zero] at h1
              rw [List.getD_cons_succ] at h2
              have hj' : j' < xs.length := by simpa using hj
              have hmem : a ∈ xs := by
                rw [← h2, List.getD_eq_getElem _ _ hj']
                exact List.getElem_mem hj'
              have hc : xs.count a ≠ 0 := fun h0 =>
                (List.count_eq_zero.1 h0) hmem
              have hx : (x == a) = true := by simp [h1]
              rw [if_pos hx]
              omega
      | succ i' =>
          cases j with
          | zero =>
              rw [List.getD_cons_zero] at h2
              rw [List.getD_cons_succ] at h1
              have hi' : i' < xs.length := by simpa using hi
              have hmem : a ∈ xs := by
                rw [← h1, List.getD_eq_getElem _ _ hi']
                exact List.getElem_mem hi'
              have hc : xs.count a ≠ 0 := fun h0 =>
                (List.count_eq_zero.1 h0) hmem
              have hx : (x == a) = true := by simp [h2]
              rw [if_pos hx]
              omega
          | succ j' =>
              rw [List.getD_cons_succ] at h1 h2
              have := ih i' j' (by omega) (by simpa using hi)
                (by simpa using hj) h1 h2
              omega

/-- A successful `generate_summary` on a non-empty series pins down the four
`Option`-valued pieces of the loop state it renders. -/
theorem generate_summary_cases (wd : List DayRecord) (hne : wd ≠ [])
    (out : String) (h : generate_summary wd = some out) :
    ∃ m M dmin dmax, (summaryState wd).min_temp = some m ∧
      (summaryState wd).max_temp = some M ∧
      parseIsoDate (summaryState wd).min_day = some dmin ∧
      parseIsoDate (summaryState wd).max_day = some dmax := by
  have hemp : wd.isEmpty = false := by simp [List.isEmpty_iff, hne]
  simp only [generate_summary, hemp, Bool.false_eq_true, if_false] at h
  split at h
  case h_1 m M dmin dmax hm hM hdmin hdmax =>
    exact ⟨m, M, dmin, dmax, hm, hM, hdmin, hdmax⟩
  case h_2 => cases h

/-- The exact text produced by `generate_summary` on a non-empty series,
in terms of the final loop state. -/
theorem generate_summary_render (wd : List DayRecord) (hne : wd ≠ [])
    (m M : ℚ) (dmin dmax : Date)
    (hm : (summaryState wd).min_temp = some m)
    (hM : (summaryState wd).max_temp = some M)
    (hdmin : parseIsoDate (summaryState wd).min_day = some dmin)
    (hdmax : parseIsoDate (summaryState wd).max_day = some dmax) :
    generate_summary wd = some (toString wd.length ++ " Day Overview\n" ++
      "  The lowest temperature will be " ++ format_temperature m ++
        ", and will occur on " ++ formatHuman dmin ++ ".\n" ++
      "  The highest temperature will be " ++ format_temperature M ++
        ", and will occur on " ++ formatHuman dmax ++ ".\n" ++
      "  The average low this week is " ++
        format_temperature
          (pyRound1 ((summaryState wd).total_min / (wd.length : ℚ))) ++
        ".\n" ++
      "  The average high this week is " ++
        format_temperature
          (pyRound1 ((summaryState wd).total_max / (wd.length : ℚ))) ++
        ".\n") := by
  have hemp : wd.isEmpty = false := by simp [List.isEmpty_iff, hne]
  simp only [generate_summary, hemp, Bool.false_eq_true, if_false, hm, hM,
    hdmin, hdmax]

/-! ## Concrete evaluations

The arithmetic operations on `Rat` are `@[irreducible]` in the standard
library; within this section they are made reducible again so that closed
rational computations can be settled by `decide`. -/

section ConcreteEval

attribute [local semireducible] Rat.mul Rat.inv Rat.add Rat.sub

theorem eval_convert_32 : convert_f_to_c (.num 32) = some 0 := by decide

theorem eval_convert_212 : convert_f_to_c (.num 212) = some 100 := by decide

theorem eval_convert_str50 : convert_f_to_c (.str "50") = some 10 := by decide

theorem eval_convert_abc : convert_f_to_c (.str "abc") = none := by decide

theorem eval_mean_123 :
    calculate_mean [.num 1, .num 2, .num 3] = some (.inr 2) := by decide

theorem eval_find_min : find_min [1, 2, 1, 3] = some (1, 2) := by decide

theorem eval_find_max : find_max [3, 1, 3, 2] = some (3, 2) := by decide

theorem eval_tie_min_day :
    (summaryState [⟨"2021-07-05", 32, 68⟩, ⟨"2021-07-06", 32, 68⟩]).min_day =
      "2021-07-05" := by decide

theorem eval_tie_find_min :
    find_min (convMins [⟨"2021-07-05", 32, 68⟩, ⟨"2021-07-06", 32, 68⟩]) =
      some (0, 1) := by decide

theorem eval_daily :
    generate_daily_summary [⟨"2021-07-06", 32, 68⟩] =
      some ("1 Day Overview\n\n---- Tuesday 06 July 2021 ----\n" ++
        "  Minimum Temperature: 0.0°C\n  Maximum Temperature: 20.0°C-") := by
  decide

end ConcreteEval

/-! ## Claims -/

/-- C6: for the empty series (and empty list), `calculate_mean`,
`generate_summary` and `generate_daily_summary` all return the fixed sentinel
string `"No daily weather data available."` rather than raising an error. -/
theorem claim_C6 :
    calculate_mean [] = some (.inl noDataMsg) ∧
    generate_summary [] = some noDataMsg ∧
    generate_daily_summary [] = some noDataMsg ∧
    noDataMsg = "No daily weather data available." :=
  ⟨rfl, rfl, rfl, rfl⟩

/-- C7: for every numeric (or numeric-string) input that coerces to `q`,
`convert_f_to_c` returns `(q - 32) * 5/9` rounded to one decimal, and fails
with a parse error exactly on non-numeric input; in particular
`convert_f_to_c 32 = 0.0` and `convert_f_to_c 212 = 100.0`. -/
theorem claim_C7 :
    (∀ (v : PyVal) (q : ℚ), pyFloat v = some q →
        convert_f_to_c v = some (pyRound1 ((q - 32) * 5 / 9))) ∧
    (∀ v : PyVal, pyFloat v = none → convert_f_to_c v = none) ∧
    convert_f_to_c (.num 32) = some 0 ∧
    convert_f_to_c (.num 212) = some 100 ∧
    convert_f_to_c (.str "50") = some 10 ∧
    convert_f_to_c (.str "abc") = none := by
  refine ⟨?_, ?_, eval_convert_32, eval_convert_212, eval_convert_str50,
    eval_convert_abc⟩
  · intro v q h
    simp [convert_f_to_c, h, convert_f_to_c_q]
  · intro v h
    simp [convert_f_to_c, h]

/-- Witness for C7 at the concrete input `50`. -/
theorem claim_C7_witness :
    convert_f_to_c (.num 50) = some (pyRound1 ((50 - 32) * 5 / 9)) :=
  claim_C7.1 (.num 50) 50 rfl

/-- C8: for every non-empty list of values that all coerce to floats,
`calculate_mean` returns their arithmetic mean (sum of conversions divided by
count), and fails with a parse error when some element is non-numeric; in
particular `calculate_mean [1, 2, 3] = 2.0`. -/
theorem claim_C8 :
    (∀ l : List PyVal, l ≠ [] → ∀ qs : List ℚ, l.mapM pyFloat = some qs →
        qs.length = l.length ∧
        calculate_mean l = some (.inr (qs.sum / (qs.length : ℚ)))) ∧
    (∀ l : List PyVal, (∃ v ∈ l, pyFloat v = none) →
        calculate_mean l = none) ∧
    calculate_mean [.num 1, .num 2, .num 3] = some (.inr 2) := by
  refine ⟨?_, ?_, eval_mean_123⟩
  · intro l hne qs h
    refine ⟨mapM_some_length pyFloat l qs h, ?_⟩
    unfold calculate_mean
    rw [if_neg (by simp [List.isEmpty_iff, hne]), h]
  · intro l h
    have hnone := mapM_eq_none pyFloat l h
    have hne : l ≠ [] := by
      rintro rfl
      simp at h
    unfold calculate_mean
    rw [if_neg (by simp [List.isEmpty_iff, hne]), hnone]

/-- C2: for every non-empty list of numbers, `find_min` (resp. `find_max`)
returns the minimum (resp. maximum) value together with the 0-based index of
its last occurrence; both return the empty result on the empty list; in
particular `find_min [1,2,1,3] = (1.0, 2)` and `find_max [3,1,3,2] = (3.0, 2)`. -/
theorem claim_C2 :
    find_min ([] : List ℚ) = none ∧ find_max ([] : List ℚ) = none ∧
    (∀ l : List ℚ, l ≠ [] → ∃ m i, find_min l = some (m, i) ∧
        i < l.length ∧ l.getD i 0 = m ∧ (∀ x ∈ l, m ≤ x) ∧
        (∀ j, i < j → j < l.length → l.getD j 0 ≠ m)) ∧
    (∀ l : List ℚ, l ≠ [] → ∃ m i, find_max l = some (m, i) ∧
        i < l.length ∧ l.getD i 0 = m ∧ (∀ x ∈ l, x ≤ m) ∧
        (∀ j, i < j → j < l.length → l.getD j 0 ≠ m)) ∧
    find_min [1, 2, 1, 3] = some (1, 2) ∧ find_max [3, 1, 3, 2] = some (3, 2) :=
  ⟨rfl, rfl, find_min_nonempty, find_max_nonempty, eval_find_min, eval_find_max⟩

/-- Witness for C2 at the concrete list `[5, 7]`. -/
theorem claim_C2_witness :
    ∃ m i, find_min [(5 : ℚ), 7] = some (m, i) ∧
      i < [(5 : ℚ), 7].length ∧ [(5 : ℚ), 7].getD i 0 = m ∧
      (∀ x ∈ [(5 : ℚ), 7], m ≤ x) ∧
      (∀ j, i < j → j < [(5 : ℚ), 7].length → [(5 : ℚ), 7].getD j 0 ≠ m) :=
  claim_C2.2.2.1 [5, 7] (by decide)

/-- Witness for C8 at the concrete list `[1, 4]`. -/
theorem claim_C8_witness :
    ([(1 : ℚ), 4].length = [PyVal.num 1, PyVal.num 4].length ∧
      calculate_mean [PyVal.num 1, PyVal.num 4] =
        some (.inr ([(1 : ℚ), 4].sum / (([(1 : ℚ), 4].length : ℕ) : ℚ)))) :=
  claim_C8.1 [PyVal.num 1, PyVal.num 4] (by decide) [1, 4] rfl

/-- C9: `convert_date` renders every valid ISO 8601 date string as
`"<full weekday> <zero-padded day> <full month> <4-digit year>"` and fails
with a parse error exactly when the input is not a valid ISO date; in
particular `convert_date "2021-07-06" = "Tuesday 06 July 2021"`. -/
theorem claim_C9 :
    (∀ (s : String) (dt : Date), parseIsoDate s = some dt →
        convert_date s = some (formatHuman dt) ∧
        validDate dt.year dt.month dt.day = true ∧
        s = renderIso dt.year dt.month dt.day) ∧
    (∀ y m d : ℕ, validDate y m d = true →
        convert_date (renderIso y m d) = some (formatHuman ⟨y, m, d⟩)) ∧
    (∀ s : String, parseIsoDate s = none → convert_date s = none) ∧
    convert_date "2021-07-06" = some "Tuesday 06 July 2021" := by
  refine ⟨?_, ?_, ?_, by decide⟩
  · intro s dt h
    obtain ⟨h1, h2⟩ := parseIsoDate_eq_some s dt h
    exact ⟨by rw [convert_date, h]; rfl, h1, h2⟩
  · intro y m d h
    rw [convert_date, parseIsoDate_renderIso y m d h]
    rfl
  · intro s h
    rw [convert_date, h]
    rfl

/-- Witness for C9 at the concrete date 2021-07-06. -/
theorem claim_C9_witness :
    convert_date (renderIso 2021 7 6) = some (formatHuman ⟨2021, 7, 6⟩) :=
  claim_C9.2.1 2021 7 6 (by decide)

/-- C1: on a non-empty series the aggregate summary reports, as the
lowest-temperature (resp. highest-temperature) date, the date of the FIRST
record attaining the overall converted extremum: all earlier records are
strictly warmer (resp. cooler), so ties keep the earliest-seen day — the
opposite of `find_min`/`find_max`'s last-occurrence rule, as the concrete
tied series shows. -/
theorem claim_C1 :
    (∀ wd : List DayRecord, wd ≠ [] → ∃ m i,
        (summaryState wd).min_temp = some m ∧ i < wd.length ∧
        (summaryState wd).min_day = (wd.getD i ⟨"", 0, 0⟩).date ∧
        convert_f_to_c_q ((wd.getD i ⟨"", 0, 0⟩).min_f : ℚ) = m ∧
        (∀ r ∈ wd, m ≤ convert_f_to_c_q (r.min_f : ℚ)) ∧
        (∀ j, j < i → m < convert_f_to_c_q ((wd.getD j ⟨"", 0, 0⟩).min_f : ℚ))) ∧
    (∀ wd : List DayRecord, wd ≠ [] → ∃ M i,
        (summaryState wd).max_temp = some M ∧ i < wd.length ∧
        (summaryState wd).max_day = (wd.getD i ⟨"", 0, 0⟩).date ∧
        convert_f_to_c_q ((wd.getD i ⟨"", 0, 0⟩).max_f : ℚ) = M ∧
        (∀ r ∈ wd, convert_f_to_c_q (r.max_f : ℚ) ≤ M) ∧
        (∀ j, j < i →
          convert_f_to_c_q ((wd.getD j ⟨"", 0, 0⟩).max_f : ℚ) < M)) ∧
    ((summaryState [⟨"2021-07-05", 32, 68⟩, ⟨"2021-07-06", 32, 68⟩]).min_day =
        "2021-07-05" ∧
      find_min (convMins [⟨"2021-07-05", 32, 68⟩, ⟨"2021-07-06", 32, 68⟩]) =
        some (0, 1) ∧
      ([(⟨"2021-07-05", 32, 68⟩ : DayRecord),
        ⟨"2021-07-06", 32, 68⟩].getD 1 ⟨"", 0, 0⟩).date = "2021-07-06") :=
  ⟨summary_min_spec, summary_max_spec, eval_tie_min_day, eval_tie_find_min, rfl⟩

/-- Witness for C1 at the concrete single-record series. -/
theorem claim_C1_witness :
    ∃ m i, (summaryState [⟨"2021-07-06", 32, 68⟩]).min_temp = some m ∧
      i < [(⟨"2021-07-06", 32, 68⟩ : DayRecord)].length ∧
      (summaryState [⟨"2021-07-06", 32, 68⟩]).min_day =
        ([(⟨"2021-07-06", 32, 68⟩ : DayRecord)].getD i ⟨"", 0, 0⟩).date ∧
      convert_f_to_c_q
        ((([(⟨"2021-07-06", 32, 68⟩ : DayRecord)].getD i ⟨"", 0, 0⟩).min_f : ℚ)) = m ∧
      (∀ r ∈ [(⟨"2021-07-06", 32, 68⟩ : DayRecord)],
        m ≤ convert_f_to_c_q (r.min_f : ℚ)) ∧
      (∀ j, j < i → m < convert_f_to_c_q
        ((([(⟨"2021-07-06", 32, 68⟩ : DayRecord)].getD j ⟨"", 0, 0⟩).min_f : ℚ))) :=
  claim_C1.1 [⟨"2021-07-06", 32, 68⟩] (by simp)

/-- C4: on a non-empty series the averages reported by `generate_summary`
are `round(S/N, 1)` where `S` sums the per-day conversions that were already
rounded to one decimal by `convert_f_to_c` — rounding happens per day before
summation. -/
theorem claim_C4 : ∀ wd : List DayRecord, wd ≠ [] →
    (summaryState wd).total_min = (convMins wd).sum ∧
    (summaryState wd).total_max = (convMaxs wd).sum ∧
    ∀ out, generate_summary wd = some out →
      ∃ pre, out = pre ++
        ("  The average low this week is " ++
          format_temperature
            (pyRound1 ((convMins wd).sum / (wd.length : ℚ))) ++ ".\n" ++
          "  The average high this week is " ++
          format_temperature
            (pyRound1 ((convMaxs wd).sum / (wd.length : ℚ))) ++ ".\n") := by
  intro wd hne
  obtain ⟨ht1, ht2⟩ := foldl_summaryStep_total wd initSummaryState
  rw [show initSummaryState.total_min = 0 from rfl, zero_add] at ht1
  rw [show initSummaryState.total_max = 0 from rfl, zero_add] at ht2
  have e1 : (summaryState wd).total_min = (convMins wd).sum := ht1
  have e2 : (summaryState wd).total_max = (convMaxs wd).sum := ht2
  refine ⟨e1, e2, ?_⟩
  intro out hout
  obtain ⟨m, M, dmin, dmax, hm, hM, hdmin, hdmax⟩ :=
    generate_summary_cases wd hne out hout
  rw [generate_summary_render wd hne m M dmin dmax hm hM hdmin hdmax] at hout
  injection hout with hout
  refine ⟨toString wd.length ++ " Day Overview\n" ++
    "  The lowest temperature will be " ++ format_temperature m ++
    ", and will occur on " ++ formatHuman dmin ++ ".\n" ++
    "  The highest temperature will be " ++ format_temperature M ++
    ", and will occur on " ++ formatHuman dmax ++ ".\n", ?_⟩
  rw [← hout, e1, e2]
  apply String.ext
  simp only [String.data_append, List.append_assoc]

/-- Witness for C4 at the concrete single-record series. -/
theorem claim_C4_witness :
    (summaryState [⟨"2021-07-06", 32, 68⟩]).total_min =
      (convMins [⟨"2021-07-06", 32, 68⟩]).sum :=
  (claim_C4 [⟨"2021-07-06", 32, 68⟩] (by simp)).1

/-- C5: on a non-empty series whose dates all parse, `generate_summary`
returns exactly the five-line report: header `"<N> Day Overview"` with `N`
the series length, the lowest/highest lines with their dates rendered by the
date formatter, the two average lines, every temperature suffixed `"°C"`,
and a trailing newline. -/
theorem claim_C5 : ∀ wd : List DayRecord, wd ≠ [] →
    (∀ r ∈ wd, (parseIsoDate r.date).isSome) →
    ∃ m M dmin dmax,
      (summaryState wd).min_temp = some m ∧
      (summaryState wd).max_temp = some M ∧
      parseIsoDate (summaryState wd).min_day = some dmin ∧
      parseIsoDate (summaryState wd).max_day = some dmax ∧
      generate_summary wd = some (toString wd.length ++ " Day Overview\n" ++
        "  The lowest temperature will be " ++ (fmtRat1 m ++ "°C") ++
          ", and will occur on " ++ formatHuman dmin ++ ".\n" ++
        "  The highest temperature will be " ++ (fmtRat1 M ++ "°C") ++
          ", and will occur on " ++ formatHuman dmax ++ ".\n" ++
        "  The average low this week is " ++
          (fmtRat1 (pyRound1 ((summaryState wd).total_min / (wd.length : ℚ))) ++
            "°C") ++ ".\n" ++
        "  The average high this week is " ++
          (fmtRat1 (pyRound1 ((summaryState wd).total_max / (wd.length : ℚ))) ++
            "°C") ++ ".\n") := by
  intro wd hne hparse
  obtain ⟨m, i, hm, hi, hday, _, _, _⟩ := summary_min_spec wd hne
  obtain ⟨M, iM, hM, hiM, hdayM, _, _, _⟩ := summary_max_spec wd hne
  have hmemi : wd.getD i ⟨"", 0, 0⟩ ∈ wd := by
    rw [List.getD_eq_getElem _ _ hi]
    exact List.getElem_mem hi
  have hmemiM : wd.getD iM ⟨"", 0, 0⟩ ∈ wd := by
    rw [List.getD_eq_getElem _ _ hiM]
    exact List.getElem_mem hiM
  obtain ⟨dmin, hdmin⟩ : ∃ dmin,
      parseIsoDate (summaryState wd).min_day = some dmin := by
    rw [hday]
    exact Option.isSome_iff_exists.1 (hparse _ hmemi)
  obtain ⟨dmax, hdmax⟩ : ∃ dmax,
      parseIsoDate (summaryState wd).max_day = some dmax := by
    rw [hdayM]
    exact Option.isSome_iff_exists.1 (hparse _ hmemiM)
  exact ⟨m, M, dmin, dmax, hm, hM, hdmin, hdmax,
    generate_summary_render wd hne m M dmin dmax hm hM hdmin hdmax⟩

/-- Witness for C5 at the concrete single-record series. -/
theorem claim_C5_witness :
    ∃ m M dmin dmax,
      (summaryState [⟨"2021-07-06", 32, 68⟩]).min_temp = some m ∧
      (summaryState [⟨"2021-07-06", 32, 68⟩]).max_temp = some M ∧
      parseIsoDate (summaryState [⟨"2021-07-06", 32, 68⟩]).min_day = some dmin ∧
      parseIsoDate (summaryState [⟨"2021-07-06", 32, 68⟩]).max_day = some dmax ∧
      generate_summary [⟨"2021-07-06", 32, 68⟩] =
        some (toString [(⟨"2021-07-06", 32, 68⟩ : DayRecord)].length ++
          " Day Overview\n" ++
          "  The lowest temperature will be " ++ (fmtRat1 m ++ "°C") ++
            ", and will occur on " ++ formatHuman dmin ++ ".\n" ++
          "  The highest temperature will be " ++ (fmtRat1 M ++ "°C") ++
            ", and will occur on " ++ formatHuman dmax ++ ".\n" ++
          "  The average low this week is " ++
            (fmtRat1 (pyRound1 ((summaryState [⟨"2021-07-06", 32, 68⟩]).total_min /
              (([(⟨"2021-07-06", 32, 68⟩ : DayRecord)].length : ℕ) : ℚ))) ++
              "°C") ++ ".\n" ++
          "  The average high this week is " ++
            (fmtRat1 (pyRound1 ((summaryState [⟨"2021-07-06", 32, 68⟩]).total_max /
              (([(⟨"2021-07-06", 32, 68⟩ : DayRecord)].length : ℕ) : ℚ))) ++
              "°C") ++ ".\n") :=
  claim_C5 [⟨"2021-07-06", 32, 68⟩] (by simp) (by decide)

/-- C10: on a non-empty series the extremal VALUE reported by the aggregate
summary equals the value component of `find_min` (resp. `find_max`) applied
to the per-record converted minima (resp. maxima); when the extremum occurs
at most once, the associated dates agree as well. -/
theorem claim_C10 : ∀ wd : List DayRecord, wd ≠ [] →
    ∃ m M i j,
      find_min (convMins wd) = some (m, i) ∧
      find_max (convMaxs wd) = some (M, j) ∧
      (summaryState wd).min_temp = some m ∧
      (summaryState wd).max_temp = some M ∧
      ((convMins wd).count m ≤ 1 →
        (summaryState wd).min_day = (wd.getD i ⟨"", 0, 0⟩).date) ∧
      ((convMaxs wd).count M ≤ 1 →
        (summaryState wd).max_day = (wd.getD j ⟨"", 0, 0⟩).date) := by
  intro wd hne
  have hminne : convMins wd ≠ [] := fun h => hne (by simpa [convMins] using h)
  have hmaxne : convMaxs wd ≠ [] := fun h => hne (by simpa [convMaxs] using h)
  have hlenmin : (convMins wd).length = wd.length := by simp [convMins]
  have hlenmax : (convMaxs wd).length = wd.length := by simp [convMaxs]
  obtain ⟨m, i, hfm, hi, hgetm, hminall, _⟩ := find_min_nonempty (convMins wd) hminne
  obtain ⟨M, j, hfM, hj, hgetM, hmaxall, _⟩ := find_max_nonempty (convMaxs wd) hmaxne
  obtain ⟨m', i', hmt, hi', hdaymin, hconvmin, hlb, _⟩ := summary_min_spec wd hne
  obtain ⟨M', j', hMt, hj', hdaymax, hconvmax, hub, _⟩ := summary_max_spec wd hne
  have hgetm' : (convMins wd).getD i' 0 = m' := by
    rw [convMins_getD wd i' hi']; exact hconvmin
  have hgetM' : (convMaxs wd).getD j' 0 = M' := by
    rw [convMaxs_getD wd j' hj']; exact hconvmax
  have hmm : m = m' := by
    have hm_mem : m ∈ convMins wd := by
      rw [← hgetm, List.getD_eq_getElem _ _ hi]
      exact List.getElem_mem hi
    have h1 : m' ≤ m := by
      obtain ⟨r, hr, hrm⟩ := List.mem_map.1 (by simpa [convMins] using hm_mem)
      rw [← hrm]
      exact hlb r hr
    have hm'_mem : m' ∈ convMins wd := by
      rw [← hgetm', List.getD_eq_getElem _ _ (by omega)]
      exact List.getElem_mem (by omega)
    exact le_antisymm (hminall m' hm'_mem) h1
  have hMM : M = M' := by
    have hM_mem : M ∈ convMaxs wd := by
      rw [← hgetM, List.getD_eq_getElem _ _ hj]
      exact List.getElem_mem hj
    have h1 : M ≤ M' := by
      obtain ⟨r, hr, hrM⟩ := List.mem_map.1 (by simpa [convMaxs] using hM_mem)
      rw [← hrM]
      exact hub r hr
    have hM'_mem : M' ∈ convMaxs wd := by
      rw [← hgetM', List.getD_eq_getElem _ _ (by omega)]
      exact List.getElem_mem (by omega)
    exact le_antisymm h1 (hmaxall M' hM'_mem)
  subst hmm
  subst hMM
  refine ⟨m, M, i, j, hfm, hfM, hmt, hMt, ?_, ?_⟩
  · intro hcount
    by_cases hii : i' = i
    · rw [← hii]; exact hdaymin
    · exact absurd hcount (by
        have := two_getD_count (convMins wd) m i' i hii (by omega) hi hgetm' hgetm
        omega)
  · intro hcount
    by_cases hjj : j' = j
    · rw [← hjj]; exact hdaymax
    · exact absurd hcount (by
        have := two_getD_count (convMaxs wd) M j' j hjj (by omega) hj hgetM' hgetM
        omega)

/-- Witness for C10 at the concrete single-record series. -/
theorem claim_C10_witness :
    ∃ m M i j,
      find_min (convMins [⟨"2021-07-06", 32, 68⟩]) = some (m, i) ∧
      find_max (convMaxs [⟨"2021-07-06", 32, 68⟩]) = some (M, j) ∧
      (summaryState [⟨"2021-07-06", 32, 68⟩]).min_temp = some m ∧
      (summaryState [⟨"2021-07-06", 32, 68⟩]).max_temp = some M ∧
      ((convMins [⟨"2021-07-06", 32, 68⟩]).count m ≤ 1 →
        (summaryState [⟨"2021-07-06", 32, 68⟩]).min_day =
          ([(⟨"2021-07-06", 32, 68⟩ : DayRecord)].getD i ⟨"", 0, 0⟩).date) ∧
      ((convMaxs [⟨"2021-07-06", 32, 68⟩]).count M ≤ 1 →
        (summaryState [⟨"2021-07-06", 32, 68⟩]).max_day =
          ([(⟨"2021-07-06", 32, 68⟩ : DayRecord)].getD j ⟨"", 0, 0⟩).date) :=
  claim_C10 [⟨"2021-07-06", 32, 68⟩] (by simp)

/-- C3: on a non-empty series whose dates all parse,
`generate_daily_summary` returns `"<N> Day Overview\n\n"` followed by one
three-line block per record in order, blocks joined by a blank line,
temperatures converted and rounded to one decimal with the `"°C"` suffix,
and exactly the last block's final line carrying one extra trailing hyphen
with no added space; on the concrete single-record series the full output is
the exact quoted string. -/
theorem claim_C3 :
    (∀ wd : List DayRecord, wd ≠ [] →
      (∀ r ∈ wd, (parseIsoDate r.date).isSome) →
      ∃ blocks : List String, blocks.length = wd.length ∧
        generate_daily_summary wd =
          some (toString wd.length ++ " Day Overview\n\n" ++
            String.intercalate "\n\n" blocks) ∧
        ∀ i, i < wd.length → ∃ dt,
          parseIsoDate (wd.getD i ⟨"", 0, 0⟩).date = some dt ∧
          blocks.getD i "" =
            "---- " ++ formatHuman dt ++ " ----" ++ "\n" ++
            "  Minimum Temperature: " ++
              (fmtRat1 (pyRound1 (convert_f_to_c_q
                ((wd.getD i ⟨"", 0, 0⟩).min_f : ℚ))) ++ "°C") ++ "\n" ++
            "  Maximum Temperature: " ++
              (fmtRat1 (pyRound1 (convert_f_to_c_q
                ((wd.getD i ⟨"", 0, 0⟩).max_f : ℚ))) ++ "°C") ++
            (if i = wd.length - 1 then "-" else "")) ∧
    generate_daily_summary [⟨"2021-07-06", 32, 68⟩] =
      some ("1 Day Overview\n\n---- Tuesday 06 July 2021 ----\n" ++
        "  Minimum Temperature: 0.0°C\n  Maximum Temperature: 20.0°C-") := by
  refine ⟨?_, eval_daily⟩
  intro wd hne hparse
  set g := fun p : ℕ × DayRecord =>
    (dailyBlock (p.1 = wd.length - 1) p.2).getD "" with hg
  have hfg : ∀ p ∈ wd.enum, dailyBlock (p.1 = wd.length - 1) p.2 = some (g p) := by
    intro p hp
    obtain ⟨dt, hdt⟩ :=
      Option.isSome_iff_exists.1 (hparse _ (List.snd_mem_of_mem_enum hp))
    rw [hg]
    simp [dailyBlock, hdt]
  have hmapM := mapM_eq_some_map _ g wd.enum hfg
  refine ⟨wd.enum.map g, by simp, ?_, ?_⟩
  · have hemp : wd.isEmpty = false := by simp [List.isEmpty_iff, hne]
    simp only [generate_daily_summary, hemp, Bool.false_eq_true, if_false,
      hmapM]
  · intro i hi
    have hmem : wd.getD i ⟨"", 0, 0⟩ ∈ wd := by
      rw [List.getD_eq_getElem _ _ hi]
      exact List.getElem_mem hi
    obtain ⟨dt, hdt⟩ := Option.isSome_iff_exists.1 (hparse _ hmem)
    refine ⟨dt, hdt, ?_⟩
    have hienum : i < wd.enum.length := by simpa using hi
    have hbl : (wd.enum.map g).getD i "" = g (i, wd.getD i ⟨"", 0, 0⟩) := by
      rw [List.getD_eq_getElem _ _ (by simpa using hi)]
      rw [List.getElem_map]
      congr 1
      rw [List.getElem_enum, List.getD_eq_getElem _ _ hi]
    rw [hbl, hg]
    simp only [dailyBlock, hdt, Option.map_some', Option.getD_some]
    by_cases hlast : i = wd.length - 1 <;>
      simp [hlast, format_temperature, DEGREE_SYMBOL]

/-- Witness for C3 at a concrete two-record series. -/
theorem claim_C3_witness :
    ∃ blocks : List String,
      blocks.length = [(⟨"2021-07-05", 30, 75⟩ : DayRecord),
        ⟨"2021-07-06", 32, 68⟩].length ∧
      generate_daily_summary [⟨"2021-07-05", 30, 75⟩, ⟨"2021-07-06", 32, 68⟩] =
        some (toString [(⟨"2021-07-05", 30, 75⟩ : DayRecord),
            ⟨"2021-07-06", 32, 68⟩].length ++ " Day Overview\n\n" ++
          String.intercalate "\n\n" blocks) ∧
      ∀ i, i < [(⟨"2021-07-05", 30, 75⟩ : DayRecord),
          ⟨"2021-07-06", 32, 68⟩].length → ∃ dt,
        parseIsoDate (([(⟨"2021-07-05", 30, 75⟩ : DayRecord),
          ⟨"2021-07-06", 32, 68⟩].getD i ⟨"", 0, 0⟩).date) = some dt ∧
        blocks.getD i "" =
          "---- " ++ formatHuman dt ++ " ----" ++ "\n" ++
          "  Minimum Temperature: " ++
            (fmtRat1 (pyRound1 (convert_f_to_c_q
              ((([(⟨"2021-07-05", 30, 75⟩ : DayRecord),
                ⟨"2021-07-06", 32, 68⟩].getD i ⟨"", 0, 0⟩).min_f : ℚ)))) ++
              "°C") ++ "\n" ++
          "  Maximum Temperature: " ++
            (fmtRat1 (pyRound1 (convert_f_to_c_q
              ((([(⟨"2021-07-05", 30, 75⟩ : DayRecord),
                ⟨"2021-07-06", 32, 68⟩].getD i ⟨"", 0, 0⟩).max_f : ℚ)))) ++
              "°C") ++
          (if i = [(⟨"2021-07-05", 30, 75⟩ : DayRecord),
              ⟨"2021-07-06", 32, 68⟩].length - 1 then "-" else "") :=
  claim_C3.1 [⟨"2021-07-05", 30, 75⟩, ⟨"2021-07-06", 32, 68⟩]
    (by simp) (by decide)

end Weather
